import Mathlib

/-!
# Conway's Game of Life (`src/main.cpp`): a shallow embedding

The class template `GameOfLife<gridSizeX, gridSizeY>` is embedded as a record of the
fields the simulation reads and writes, and every member function as a pure function
on that record, with the two template parameters passed explicitly.

Conventions of the embedding.

* `unsigned int` (the component type of `sf::Vector2u`) is 32 bits wide: arithmetic on
  it is taken modulo `2^32`.  `size_t` values (indices into the bit sets, the loop
  counters) never leave the range of the type on the paths modelled here, except for
  the generation counter, which is incremented modulo `2^64`.
* `std::bitset<N>` is a function from bit positions to `Bool`; only positions below `N`
  are ever read or written.
* `memcpy(dst, src, n)` between two bit sets copies the first `n` bytes of the object
  representation, that is the bit positions below `8 * n` (bit `p` of a `std::bitset`
  lives in byte `p / 8` on the little-endian targets SFML runs on); the other positions
  of `dst` keep their value.
* `float` quantities (the zoom accumulator, the timer, world coordinates) are rational
  numbers and the arithmetic on them is exact.
* The window, the view, the clock and the mouse belong to SFML; what the program reads
  from them (the world position under the pointer, the pressed buttons, the elapsed
  time, the polled events) is an explicit input of the functions.
-/

/-! ## Data model -/

/-- Two unsigned 32-bit coordinates: `sf::Vector2u`. -/
structure Vector2u where
  x : Nat
  y : Nat
deriving DecidableEq, Repr

/-- Two signed coordinates: `sf::Vector2i`. -/
structure Vector2i where
  x : Int
  y : Int
deriving DecidableEq, Repr

/-- Two `float` coordinates, as exact rationals: `sf::Vector2f`. -/
structure Vector2f where
  x : ℚ
  y : ℚ
deriving DecidableEq

/-- The value of an `unsigned int` expression: reduction modulo `2^32`. -/
def u32 (n : Nat) : Nat := n % 4294967296

/-- A `std::bitset`: the value of each bit position. -/
abbrev Bitset := Nat → Bool

namespace Bitset

/-- The member `test(pos)`. -/
def test (b : Bitset) (pos : Nat) : Bool := b pos

/-- The member `set(pos, val)` (and `reset(pos)` for `val = false`). -/
def set (b : Bitset) (pos : Nat) (val : Bool) : Bitset :=
  fun k => if k = pos then val else b k

/-- The member `none()` of a bit set with `N` bits. -/
def none (N : Nat) (b : Bitset) : Bool := (List.range N).all (fun k => !b k)

/-- The member `reset()` without argument: every bit cleared. -/
def resetAll : Bitset := fun _ => false

/-- The call `memcpy(dst, src, nbytes)` on two bit sets. -/
def memcpy (dst src : Bitset) (nbytes : Nat) : Bitset :=
  fun k => if k < 8 * nbytes then src k else dst k

end Bitset

/-- The data members of `GameOfLife` that the simulation logic uses. -/
structure GameOfLife where
  m_timer : ℚ
  m_totalZoom : ℚ
  m_cellMap : Bitset
  m_cellMapCopy : Bitset
  m_startFlag : Bool
  m_numGenerations : Nat

namespace GameOfLife

/-- The constant member `m_tickSpeed = 0.1f`. -/
def m_tickSpeed : ℚ := 1 / 10

/-- The constant member `m_zoomFactor = 1.10f`. -/
def m_zoomFactor : ℚ := 11 / 10

/-- The constant member `m_viewSize.x = 100.0f`. -/
def m_viewSizeX : ℚ := 100

/-- The width of the window the constructor opens (`sf::VideoMode{ 800u, 800u }`). -/
def windowSizeX : ℚ := 800

/-- The constructor: both bit sets are value-initialised, the member initialisers give
the other fields, and `m_totalZoom = m_viewSize.x / m_window->getSize().x`. -/
def init : GameOfLife :=
  { m_timer := 0
    m_totalZoom := m_viewSizeX / windowSizeX
    m_cellMap := Bitset.resetAll
    m_cellMapCopy := Bitset.resetAll
    m_startFlag := false
    m_numGenerations := 0 }

/-! ## `setCell` -/

/-- The conversion `float → int` of `sf::Vector2i{ sf::Vector2f }`: truncation toward
zero. -/
def floatToInt (f : ℚ) : Int := if f < 0 then -((-f).floor) else f.floor

/-- The member `setCell`. `worldPos` is `m_window->mapPixelToCoords(mousePos)`. The
division of the `sf::Vector2i` by `2` is the C++ integer division, which truncates
toward zero. -/
def setCell (gridSizeX gridSizeY : Nat) (g : GameOfLife) (worldPos : Vector2f)
    (state : Bool) : GameOfLife :=
  let cellPos : Vector2i :=
    ⟨Int.tdiv (floatToInt worldPos.x) 2, Int.tdiv (floatToInt worldPos.y) 2⟩
  if 0 ≤ cellPos.x ∧ cellPos.x < gridSizeX ∧ 0 ≤ cellPos.y ∧ cellPos.y < gridSizeY then
    let cellIndex : Nat := cellPos.y.toNat * gridSizeX + cellPos.x.toNat
    { g with m_cellMap := g.m_cellMap.set cellIndex state }
  else g

/-! ## `getNeighbors` and `doGeneration` -/

/-- The member `getNeighbors`. `cell.x - 1` and `cell.x + 1` are `unsigned int`
expressions, so they are reduced modulo `2^32` before `% gridSizeX` is applied. -/
def getNeighbors (gridSizeX gridSizeY : Nat) (cell : Vector2u) : List Vector2u :=
  let im := u32 (cell.x + 4294967296 - 1) % gridSizeX
  let ip := u32 (cell.x + 1) % gridSizeX
  let jm := u32 (cell.y + 4294967296 - 1) % gridSizeY
  let jp := u32 (cell.y + 1) % gridSizeY
  [⟨im, jm⟩, ⟨im, cell.y⟩, ⟨im, jp⟩, ⟨cell.x, jm⟩,
   ⟨cell.x, jp⟩, ⟨ip, jm⟩, ⟨ip, cell.y⟩, ⟨ip, jp⟩]

/-- The innermost loop of `doGeneration`: how many of `cells` are set in `m`. -/
def countAlive (gridSizeX : Nat) (m : Bitset) (cells : List Vector2u) : Nat :=
  cells.foldl (fun n c => if m.test (c.y * gridSizeX + c.x) then n + 1 else n) 0

/-- The body of the loop over `neighbors` in `doGeneration`; the accumulator is
`numNeighbors` and the bit set `*m_cellMapCopy`. -/
def visitNeighbor (gridSizeX gridSizeY : Nat) (m : Bitset) (acc : Nat × Bitset)
    (neighbor : Vector2u) : Nat × Bitset :=
  if m.test (neighbor.y * gridSizeX + neighbor.x) then (acc.1 + 1, acc.2)
  else
    let numNeighborsDead := countAlive gridSizeX m (getNeighbors gridSizeX gridSizeY neighbor)
    if numNeighborsDead = 3 then
      (acc.1, acc.2.set (neighbor.y * gridSizeX + neighbor.x) true)
    else acc

/-- The body of the two nested `for` loops of `doGeneration`, for the cell `(i, j)`.
The braces `{ i, j }` convert the two `size_t` counters to `unsigned int`. -/
def visitCell (gridSizeX gridSizeY : Nat) (m : Bitset) (copy : Bitset) (i j : Nat) :
    Bitset :=
  if !m.test (j * gridSizeX + i) then copy
  else
    let r := (getNeighbors gridSizeX gridSizeY ⟨u32 i, u32 j⟩).foldl
      (visitNeighbor gridSizeX gridSizeY m) (0, copy)
    if r.1 < 2 then r.2.set (j * gridSizeX + i) false
    else if r.1 > 3 then r.2.set (j * gridSizeX + i) false
    else r.2

/-- The two nested `for` loops of `doGeneration`: `i` over the columns, `j` over the
rows, reading `m` and writing the copy. -/
def generationLoop (gridSizeX gridSizeY : Nat) (m : Bitset) (copy : Bitset) : Bitset :=
  (List.range gridSizeX).foldl
    (fun c i => (List.range gridSizeY).foldl (fun c j => visitCell gridSizeX gridSizeY m c i j) c)
    copy

/-- The member `doGeneration`: the returned flag and the state it leaves. -/
def doGeneration (gridSizeX gridSizeY : Nat) (g : GameOfLife) : Bool × GameOfLife :=
  if Bitset.none (gridSizeX * gridSizeY) g.m_cellMap then
    (false, { g with m_numGenerations := 0 })
  else
    let copy0 := Bitset.memcpy g.m_cellMapCopy g.m_cellMap (gridSizeX * gridSizeY / 8)
    let copy1 := generationLoop gridSizeX gridSizeY g.m_cellMap copy0
    let map1 := Bitset.memcpy g.m_cellMap copy1 (gridSizeX * gridSizeY / 8)
    (true, { g with
      m_cellMap := map1
      m_cellMapCopy := copy1
      m_numGenerations := (g.m_numGenerations + 1) % 18446744073709551616 })

/-! ## `handleInputs` and `update` -/

/-- The keys `handleInputs` distinguishes. -/
inductive Key where
  | space
  | enter
  | other
deriving DecidableEq

/-- The events `handleInputs` polls, with the data it reads from each. The events that
only touch the window and the view (`Closed`, the mouse buttons, `MouseMoved`) change
none of the fields of the record. -/
inductive Event where
  | closed
  | mouseWheelScrolled (delta : ℚ)
  | mouseButtonPressed
  | mouseButtonReleased
  | mouseMoved
  | keyPressed (code : Key)
deriving DecidableEq

/-- One iteration of the `while (m_window->pollEvent(sfmlEvent))` loop. -/
def handleEvent (g : GameOfLife) (e : Event) : GameOfLife :=
  match e with
  | .mouseWheelScrolled delta =>
    if delta > 0 then
      if g.m_totalZoom < 1 / 100 then g
      else { g with m_totalZoom := g.m_totalZoom * (1 / m_zoomFactor) }
    else if delta < 0 then
      if g.m_totalZoom > 3 / 10 then g
      else { g with m_totalZoom := g.m_totalZoom * m_zoomFactor }
    else g
  | .keyPressed .space => { g with m_cellMap := Bitset.resetAll }
  | .keyPressed .enter => { g with m_startFlag := !g.m_startFlag }
  | _ => g

/-- The member `handleInputs`, on the events polled during one frame. -/
def handleInputs (g : GameOfLife) (events : List Event) : GameOfLife :=
  events.foldl handleEvent g

/-- What `update` reads from SFML during one frame. -/
structure Frame where
  deltaTime : ℚ
  leftPressed : Bool
  rightPressed : Bool
  mouseWorld : Vector2f

/-- The member `update`. -/
def update (gridSizeX gridSizeY : Nat) (g : GameOfLife) (f : Frame) : GameOfLife :=
  let g1 :=
    if f.leftPressed then setCell gridSizeX gridSizeY g f.mouseWorld true
    else if f.rightPressed then setCell gridSizeX gridSizeY g f.mouseWorld false
    else g
  if g1.m_startFlag then
    let g2 := { g1 with m_timer := g1.m_timer + f.deltaTime }
    if g2.m_timer ≥ m_tickSpeed then
      let r := doGeneration gridSizeX gridSizeY g2
      { r.2 with m_startFlag := r.1, m_timer := 0 }
    else g2
  else g1

end GameOfLife

/-! ## Auxiliary definitions for the statements -/

namespace GameOfLife

/-- The test that decides whether visiting `nb` as a dead neighbour sets bit `k`. -/
def bornAt (W H : Nat) (m : Bitset) (k : Nat) (nb : Vector2u) : Bool :=
  decide (nb.y * W + nb.x = k) && decide (countAlive W m (getNeighbors W H nb) = 3)

/-- The test that decides whether visiting the live cell `(i, j)` clears its bit. -/
def diesAt (W H : Nat) (m : Bitset) (i j : Nat) : Bool :=
  decide (countAlive W m (getNeighbors W H ⟨u32 i, u32 j⟩) < 2)
    || decide (3 < countAlive W m (getNeighbors W H ⟨u32 i, u32 j⟩))

/-- The column (or row) index `(v - 1) % n` that `getNeighbors` computes, `v - 1` being
an `unsigned int` expression. -/
def prevMod (n v : Nat) : Nat := u32 (v + 4294967296 - 1) % n

/-- The column (or row) index `(v + 1) % n` that `getNeighbors` computes. -/
def nextMod (n v : Nat) : Nat := u32 (v + 1) % n

/-- The eight offsets `(dx, dy)` in `{-1, 0, 1}^2` other than `(0, 0)`. -/
def offsets : List (Int × Int) :=
  [(-1, -1), (-1, 0), (-1, 1), (0, -1), (0, 1), (1, -1), (1, 0), (1, 1)]

/-- The standard rule, read off the grid without wraparound: how many of the eight
adjacent cells `(x + dx, y + dy)` are alive in `m`. -/
def liveAdjacent (W : Nat) (m : Bitset) (x y : Nat) : Nat :=
  (offsets.filter
    (fun d => m (((y : Int) + d.2).toNat * W + ((x : Int) + d.1).toNat))).length

/-- The standard rule for one cell, evaluated once: a live cell stays alive with 2 or 3
live adjacent cells, a dead cell becomes alive with exactly 3. -/
def standardRule (W : Nat) (m : Bitset) (x y : Nat) : Bool :=
  if m (y * W + x) then
    decide (liveAdjacent W m x y = 2 ∨ liveAdjacent W m x y = 3)
  else decide (liveAdjacent W m x y = 3)

/-- The count the rule is stated with: how many of the eight toroidal neighbours
`((x + dx) mod W, (y + dy) mod H)` are alive in `m`. -/
def liveToroidal (W H : Nat) (m : Bitset) (x y : Nat) : Nat :=
  (offsets.filter
    (fun d => m ((((y : Int) + d.2) % (H : Int)).toNat * W
      + (((x : Int) + d.1) % (W : Int)).toNat))).length

/-- The live cells of the `W x H` grid stored in `m` are exactly the cells `(x, y)` of
the list `cells`. -/
def LiveExactly (W H : Nat) (m : Bitset) (cells : List (Nat × Nat)) : Prop :=
  ∀ x, x < W → ∀ y, y < H → (m (y * W + x) = true ↔ (x, y) ∈ cells)

/-- The state after `n` successive calls of `doGeneration`. -/
def generations (W H : Nat) (n : Nat) (g : GameOfLife) : GameOfLife :=
  (fun s => (doGeneration W H s).2)^[n] g

/-- A 400 x 400 grid with the live cells `(399, 0)`, `(0, 1)` and `(399, 1)`. -/
def leftColumnLive : GameOfLife :=
  { init with m_cellMap := fun k => decide (k = 399 ∨ k = 400 ∨ k = 799) }

/-- A 400 x 400 grid with the live cells `(399, 0)`, `(399, 1)` and `(399, 2)`. -/
def rightColumnLine : GameOfLife :=
  { init with m_cellMap := fun k => decide (k = 399 ∨ k = 799 ∨ k = 1199) }

/-- A 5 x 5 grid with the live cells `(1, 0)`, `(1, 1)` and `(1, 2)`. -/
def blinker5 : GameOfLife :=
  { init with m_cellMap := fun k => decide (k = 1 ∨ k = 6 ∨ k = 11) }

/-- The columns (and the rows) the block occupies: 1 and 2. -/
def inBlock (a : Nat) : Bool := a == 1 || a == 2

/-- The four cells of the block. -/
def blockCells : List (Nat × Nat) := [(1, 1), (1, 2), (2, 1), (2, 2)]

/-- The cell coordinate the editing rule is stated with: the world coordinate divided
by the cell size 2, rounded down. -/
def cellCoordinate (w : ℚ) : Int := (w / 2).floor

/-- One scroll-up event (`delta > 0`). -/
def scrollUp : Event := .mouseWheelScrolled 1

/-- One scroll-down event (`delta < 0`). -/
def scrollDown : Event := .mouseWheelScrolled (-1)

/-- A 3 x 3 grid whose only live cell is `(1, 1)`. -/
def single3 : GameOfLife :=
  { init with m_cellMap := fun k => decide (k = 4) }

end GameOfLife

/-! ## The loops of `doGeneration`, bit by bit -/

namespace GameOfLife

theorem foldl_count_from (W : Nat) (m : Bitset) (cells : List Vector2u) (n : Nat) :
    cells.foldl (fun n c => if m.test (c.y * W + c.x) then n + 1 else n) n
      = n + (cells.filter (fun c => m (c.y * W + c.x))).length := by
  induction cells generalizing n with
  | nil => simp
  | cons c cs ih =>
    by_cases h : m (c.y * W + c.x) = true
    · simp only [List.foldl_cons, Bitset.test, h, if_true, List.filter_cons, List.length_cons]
      have := ih (n + 1)
      simp only [Bitset.test] at this
      rw [this]
      omega
    · simp only [List.foldl_cons, Bitset.test, h, List.filter_cons]
      have := ih n
      simp only [Bitset.test] at this
      simpa using this

theorem countAlive_eq_length (W : Nat) (m : Bitset) (cells : List Vector2u) :
    countAlive W m cells = (cells.filter (fun c => m (c.y * W + c.x))).length := by
  unfold countAlive
  rw [foldl_count_from]
  simp

theorem foldl_visitNeighbor_fst (W H : Nat) (m : Bitset) (ns : List Vector2u)
    (n : Nat) (c : Bitset) :
    (ns.foldl (visitNeighbor W H m) (n, c)).1
      = n + (ns.filter (fun c => m (c.y * W + c.x))).length := by
  induction ns generalizing n c with
  | nil => simp
  | cons nb ns ih =>
    simp only [List.foldl_cons, List.filter_cons]
    by_cases h : m (nb.y * W + nb.x) = true
    · simp only [visitNeighbor, Bitset.test, h, if_true, ih, List.length_cons]
      omega
    · simp only [visitNeighbor, Bitset.test, h, Bool.false_eq_true, if_false]
      by_cases h3 : countAlive W m (getNeighbors W H nb) = 3
      · simp only [h3, if_true, ih]
      · simp only [h3, if_false, ih]

theorem foldl_visitNeighbor_snd_live (W H : Nat) (m : Bitset) (k : Nat) (hk : m k = true)
    (ns : List Vector2u) (n : Nat) (c : Bitset) :
    (ns.foldl (visitNeighbor W H m) (n, c)).2 k = c k := by
  induction ns generalizing n c with
  | nil => simp
  | cons nb ns ih =>
    simp only [List.foldl_cons]
    by_cases h : m (nb.y * W + nb.x) = true
    · simp only [visitNeighbor, Bitset.test, h, if_true, ih]
    · simp only [visitNeighbor, Bitset.test, h, Bool.false_eq_true, if_false]
      by_cases h3 : countAlive W m (getNeighbors W H nb) = 3
      · simp only [h3, if_true, ih]
        have hne : k ≠ nb.y * W + nb.x := by
          intro e
          rw [e] at hk
          exact h hk
        simp [Bitset.set, hne]
      · simp only [h3, if_false, ih]

theorem foldl_visitNeighbor_snd_dead (W H : Nat) (m : Bitset) (k : Nat) (hk : m k = false)
    (ns : List Vector2u) (n : Nat) (c : Bitset) :
    (ns.foldl (visitNeighbor W H m) (n, c)).2 k = (c k || ns.any (bornAt W H m k)) := by
  induction ns generalizing n c with
  | nil => simp
  | cons nb ns ih =>
    simp only [List.foldl_cons, List.any_cons]
    by_cases h : m (nb.y * W + nb.x) = true
    · have hne : nb.y * W + nb.x ≠ k := by
        intro e
        rw [e, hk] at h
        exact Bool.false_ne_true h
      simp only [visitNeighbor, Bitset.test, h, if_true, ih]
      simp [bornAt, hne]
    · simp only [visitNeighbor, Bitset.test, h, Bool.false_eq_true, if_false]
      by_cases h3 : countAlive W m (getNeighbors W H nb) = 3
      · simp only [h3, if_true, ih]
        by_cases e : nb.y * W + nb.x = k
        · simp [Bitset.set, bornAt, e, h3]
        · have e2 : k ≠ nb.y * W + nb.x := fun x => e x.symm
          simp [Bitset.set, bornAt, e, e2]
      · simp only [h3, if_false, ih]
        simp [bornAt, h3]

theorem visitCell_live (W H : Nat) (m : Bitset) (k : Nat) (hk : m k = true)
    (c : Bitset) (i j : Nat) :
    visitCell W H m c i j k
      = (c k && !(decide (j * W + i = k) && diesAt W H m i j)) := by
  unfold visitCell
  by_cases h : m (j * W + i) = true
  · simp only [Bitset.test, h, Bool.not_true, Bool.false_eq_true, if_false]
    rw [show ((getNeighbors W H ⟨u32 i, u32 j⟩).foldl (visitNeighbor W H m) (0, c)).1
        = countAlive W m (getNeighbors W H ⟨u32 i, u32 j⟩) by
      rw [foldl_visitNeighbor_fst, countAlive_eq_length]; simp]
    by_cases e : j * W + i = k
    · have e2 : k = j * W + i := e.symm
      by_cases h2 : countAlive W m (getNeighbors W H ⟨u32 i, u32 j⟩) < 2
      · simp [h2, Bitset.set, diesAt, e2]
      · by_cases h3 : 3 < countAlive W m (getNeighbors W H ⟨u32 i, u32 j⟩)
        · simp [h2, h3, Bitset.set, diesAt, e2]
        · simp only [h2, h3, if_false, gt_iff_lt, diesAt, decide_False, Bool.or_false,
            Bool.and_false, Bool.not_false, Bool.and_true]
          exact foldl_visitNeighbor_snd_live W H m k hk _ _ _
    · have e2 : k ≠ j * W + i := fun x => e x.symm
      have hs := foldl_visitNeighbor_snd_live W H m k hk
        (getNeighbors W H ⟨u32 i, u32 j⟩) 0 c
      split
      · simp [Bitset.set, e, e2, hs]
      · split
        · simp [Bitset.set, e, e2, hs]
        · simp [e, hs]
  · have hne : j * W + i ≠ k := by
      intro e
      rw [e] at h
      exact h hk
    simp [Bitset.test, h, hne]

theorem visitCell_dead (W H : Nat) (m : Bitset) (k : Nat) (hk : m k = false)
    (c : Bitset) (i j : Nat) :
    visitCell W H m c i j k
      = (c k || (m (j * W + i)
          && (getNeighbors W H ⟨u32 i, u32 j⟩).any (bornAt W H m k))) := by
  unfold visitCell
  by_cases h : m (j * W + i) = true
  · have hne : k ≠ j * W + i := by
      intro e
      rw [e, h] at hk
      exact Bool.noConfusion hk
    have hs := foldl_visitNeighbor_snd_dead W H m k hk
      (getNeighbors W H ⟨u32 i, u32 j⟩) 0 c
    simp only [Bitset.test, h, Bool.not_true, Bool.false_eq_true, if_false, Bool.true_and]
    split
    · simp [Bitset.set, hne, hs]
    · split
      · simp [Bitset.set, hne, hs]
      · simp [hs]
  · simp [Bitset.test, h]

theorem foldl_and_not {α : Type} (f : Bitset → α → Bitset) (r : α → Bool) (k : Nat)
    (hf : ∀ c a, f c a k = (c k && !r a)) (l : List α) (c : Bitset) :
    l.foldl f c k = (c k && !l.any r) := by
  induction l generalizing c with
  | nil => simp
  | cons a l ih =>
    simp only [List.foldl_cons, ih, hf, List.any_cons]
    cases c k <;> cases r a <;> simp

theorem foldl_or {α : Type} (f : Bitset → α → Bitset) (s : α → Bool) (k : Nat)
    (hf : ∀ c a, f c a k = (c k || s a)) (l : List α) (c : Bitset) :
    l.foldl f c k = (c k || l.any s) := by
  induction l generalizing c with
  | nil => simp
  | cons a l ih =>
    simp only [List.foldl_cons, ih, hf, List.any_cons]
    cases c k <;> cases s a <;> simp

theorem generationLoop_live_bool (W H : Nat) (m : Bitset) (k : Nat) (hk : m k = true)
    (c : Bitset) :
    generationLoop W H m c k
      = (c k && !(List.range W).any (fun i =>
          (List.range H).any (fun j => decide (j * W + i = k) && diesAt W H m i j))) := by
  unfold generationLoop
  apply foldl_and_not
  intro c i
  apply foldl_and_not
  intro c j
  exact visitCell_live W H m k hk c i j

theorem generationLoop_dead_bool (W H : Nat) (m : Bitset) (k : Nat) (hk : m k = false)
    (c : Bitset) :
    generationLoop W H m c k
      = (c k || (List.range W).any (fun i =>
          (List.range H).any (fun j => m (j * W + i)
            && (getNeighbors W H ⟨u32 i, u32 j⟩).any (bornAt W H m k)))) := by
  unfold generationLoop
  apply foldl_or
  intro c i
  apply foldl_or
  intro c j
  exact visitCell_dead W H m k hk c i j

end GameOfLife

/-! ## `doGeneration` on a grid with a live cell -/

namespace Bitset

theorem memcpy_apply (dst src : Bitset) (nbytes k : Nat) :
    memcpy dst src nbytes k = if k < 8 * nbytes then src k else dst k := rfl

theorem set_apply (b : Bitset) (pos : Nat) (val : Bool) (k : Nat) :
    set b pos val k = if k = pos then val else b k := rfl

theorem none_eq_true_iff (N : Nat) (b : Bitset) :
    none N b = true ↔ ∀ k, k < N → b k = false := by
  simp [none, List.all_eq_true]

theorem none_eq_false_iff (N : Nat) (b : Bitset) :
    none N b = false ↔ ∃ k, k < N ∧ b k = true := by
  rw [← Bool.not_eq_true, none_eq_true_iff]
  simp

end Bitset

namespace GameOfLife

theorem doGeneration_of_alive (W H : Nat) (g : GameOfLife)
    (hne : Bitset.none (W * H) g.m_cellMap = false) :
    doGeneration W H g
      = (true, { g with
          m_cellMap := Bitset.memcpy g.m_cellMap
            (generationLoop W H g.m_cellMap
              (Bitset.memcpy g.m_cellMapCopy g.m_cellMap (W * H / 8))) (W * H / 8)
          m_cellMapCopy := generationLoop W H g.m_cellMap
              (Bitset.memcpy g.m_cellMapCopy g.m_cellMap (W * H / 8))
          m_numGenerations := (g.m_numGenerations + 1) % 18446744073709551616 }) := by
  simp [doGeneration, hne]

theorem doGeneration_of_none (W H : Nat) (g : GameOfLife)
    (hn : Bitset.none (W * H) g.m_cellMap = true) :
    doGeneration W H g = (false, { g with m_numGenerations := 0 }) := by
  simp [doGeneration, hn]

/-- A live cell whose bit is covered by the two copies is alive after the step exactly
when no visit of a cell stored at that bit finds fewer than 2 or more than 3 live
entries in its neighbour list. -/
theorem doGeneration_live_iff (W H : Nat) (g : GameOfLife)
    (hne : Bitset.none (W * H) g.m_cellMap = false) (k : Nat)
    (hk : k < 8 * (W * H / 8)) (hm : g.m_cellMap k = true) :
    (doGeneration W H g).2.m_cellMap k = true
      ↔ ∀ i, i < W → ∀ j, j < H → j * W + i = k → diesAt W H g.m_cellMap i j = false := by
  rw [doGeneration_of_alive W H g hne]
  simp only [Bitset.memcpy_apply, hk, if_true]
  rw [generationLoop_live_bool W H g.m_cellMap k hm]
  simp only [Bitset.memcpy_apply, hk, if_true, hm, Bool.true_and, Bool.not_eq_true', List.any_eq_false,
    List.mem_range, List.any_eq_true, Bool.and_eq_true, decide_eq_true_eq, not_exists,
    not_and, Bool.not_eq_true]

/-- A dead cell whose bit is covered by the two copies is alive after the step exactly
when it occurs in the neighbour list of a live cell and its own neighbour list has
exactly 3 live entries. -/
theorem doGeneration_dead_iff (W H : Nat) (g : GameOfLife)
    (hne : Bitset.none (W * H) g.m_cellMap = false) (k : Nat)
    (hk : k < 8 * (W * H / 8)) (hm : g.m_cellMap k = false) :
    (doGeneration W H g).2.m_cellMap k = true
      ↔ ∃ i, i < W ∧ ∃ j, j < H ∧ g.m_cellMap (j * W + i) = true ∧
          ∃ nb, nb ∈ getNeighbors W H ⟨u32 i, u32 j⟩ ∧ nb.y * W + nb.x = k ∧
            countAlive W g.m_cellMap (getNeighbors W H nb) = 3 := by
  rw [doGeneration_of_alive W H g hne]
  simp only [Bitset.memcpy_apply, hk, if_true]
  rw [generationLoop_dead_bool W H g.m_cellMap k hm]
  simp only [Bitset.memcpy_apply, hk, if_true, hm, Bool.false_or, List.any_eq_true, List.mem_range,
    Bool.and_eq_true, bornAt, decide_eq_true_eq]

/-- A bit that the two copies do not cover keeps its value. -/
theorem doGeneration_tail (W H : Nat) (g : GameOfLife) (k : Nat)
    (hk : ¬ k < 8 * (W * H / 8)) :
    (doGeneration W H g).2.m_cellMap k = g.m_cellMap k := by
  unfold doGeneration
  split
  · rfl
  · simp [Bitset.memcpy_apply, hk]

end GameOfLife

/-! ## The interior of the 400 x 400 grid -/

namespace GameOfLife

theorem getNeighbors_eq (W H : Nat) (c : Vector2u) :
    getNeighbors W H c
      = [⟨prevMod W c.x, prevMod H c.y⟩, ⟨prevMod W c.x, c.y⟩, ⟨prevMod W c.x, nextMod H c.y⟩,
         ⟨c.x, prevMod H c.y⟩, ⟨c.x, nextMod H c.y⟩, ⟨nextMod W c.x, prevMod H c.y⟩,
         ⟨nextMod W c.x, c.y⟩, ⟨nextMod W c.x, nextMod H c.y⟩] := rfl

theorem prevMod_lt (n v : Nat) (hn : 0 < n) : prevMod n v < n := Nat.mod_lt _ hn

theorem nextMod_lt (n v : Nat) (hn : 0 < n) : nextMod n v < n := Nat.mod_lt _ hn

theorem u32_of_lt (v : Nat) (h : v < 4294967296) : u32 v = v := Nat.mod_eq_of_lt h

theorem u32_le (v : Nat) : u32 v ≤ v := Nat.mod_le _ _

/-- Every entry of a neighbour list of a cell of the grid is a cell of the grid. -/
theorem getNeighbors_lt (W H : Nat) (c nb : Vector2u) (hW : 0 < W) (hH : 0 < H)
    (hx : c.x < W) (hy : c.y < H) (hnb : nb ∈ getNeighbors W H c) :
    nb.x < W ∧ nb.y < H := by
  have p1 := prevMod_lt W c.x hW
  have p2 := prevMod_lt H c.y hH
  have n1 := nextMod_lt W c.x hW
  have n2 := nextMod_lt H c.y hH
  rw [getNeighbors_eq] at hnb
  simp only [List.mem_cons, List.mem_singleton, List.not_mem_nil, or_false] at hnb
  rcases hnb with h | h | h | h | h | h | h | h <;> subst h
  · exact ⟨p1, p2⟩
  · exact ⟨p1, hy⟩
  · exact ⟨p1, n2⟩
  · exact ⟨hx, p2⟩
  · exact ⟨hx, n2⟩
  · exact ⟨n1, p2⟩
  · exact ⟨n1, hy⟩
  · exact ⟨n1, n2⟩

theorem prevMod_400 (v : Nat) (h1 : 1 ≤ v) (h2 : v ≤ 400) : prevMod 400 v = v - 1 := by
  unfold prevMod u32
  omega

theorem nextMod_400 (v : Nat) (h2 : v ≤ 398) : nextMod 400 v = v + 1 := by
  unfold nextMod u32
  omega

theorem getNeighbors_interior (x y : Nat) (hx1 : 1 ≤ x) (hx2 : x ≤ 398)
    (hy1 : 1 ≤ y) (hy2 : y ≤ 398) :
    getNeighbors 400 400 ⟨x, y⟩
      = [⟨x - 1, y - 1⟩, ⟨x - 1, y⟩, ⟨x - 1, y + 1⟩, ⟨x, y - 1⟩,
         ⟨x, y + 1⟩, ⟨x + 1, y - 1⟩, ⟨x + 1, y⟩, ⟨x + 1, y + 1⟩] := by
  rw [getNeighbors_eq]
  simp only [prevMod_400 x hx1 (by omega), prevMod_400 y hy1 (by omega),
    nextMod_400 x hx2, nextMod_400 y hy2]

theorem countAlive_interior (m : Bitset) (x y : Nat) (hx1 : 1 ≤ x) (hx2 : x ≤ 398)
    (hy1 : 1 ≤ y) (hy2 : y ≤ 398) :
    countAlive 400 m (getNeighbors 400 400 ⟨x, y⟩) = liveAdjacent 400 m x y := by
  rw [getNeighbors_interior x y hx1 hx2 hy1 hy2, countAlive_eq_length]
  have a1 : ((x : Int) + -1).toNat = x - 1 := by omega
  have a2 : ((x : Int) + 0).toNat = x := by omega
  have a3 : ((x : Int) + 1).toNat = x + 1 := by omega
  have b1 : ((y : Int) + -1).toNat = y - 1 := by omega
  have b2 : ((y : Int) + 0).toNat = y := by omega
  have b3 : ((y : Int) + 1).toNat = y + 1 := by omega
  simp only [liveAdjacent, offsets, ← List.countP_eq_length_filter, List.countP_cons,
    List.countP_nil, a1, a2, a3, b1, b2, b3]

/-- In the interior the neighbour relation of `getNeighbors` is symmetric: a cell in
the neighbour list of `(x, y)` has `(x, y)` in its own neighbour list. -/
theorem mem_getNeighbors_symm_interior (x y : Nat) (hx1 : 1 ≤ x) (hx2 : x ≤ 398)
    (hy1 : 1 ≤ y) (hy2 : y ≤ 398) (nb : Vector2u)
    (hnb : nb ∈ getNeighbors 400 400 ⟨x, y⟩) :
    nb.x < 400 ∧ nb.y < 400 ∧
      (⟨x, y⟩ : Vector2u) ∈ getNeighbors 400 400 ⟨u32 nb.x, u32 nb.y⟩ := by
  have ux0 : u32 x = x := u32_of_lt x (by omega)
  have ux1 : u32 (x - 1) = x - 1 := u32_of_lt _ (by omega)
  have ux2 : u32 (x + 1) = x + 1 := u32_of_lt _ (by omega)
  have uy0 : u32 y = y := u32_of_lt y (by omega)
  have uy1 : u32 (y - 1) = y - 1 := u32_of_lt _ (by omega)
  have uy2 : u32 (y + 1) = y + 1 := u32_of_lt _ (by omega)
  have px : prevMod 400 (x + 1) = x := by rw [prevMod_400 _ (by omega) (by omega)]; omega
  have py : prevMod 400 (y + 1) = y := by rw [prevMod_400 _ (by omega) (by omega)]; omega
  have nx : nextMod 400 (x - 1) = x := by rw [nextMod_400 _ (by omega)]; omega
  have ny : nextMod 400 (y - 1) = y := by rw [nextMod_400 _ (by omega)]; omega
  rw [getNeighbors_interior x y hx1 hx2 hy1 hy2] at hnb
  simp only [List.mem_cons, List.mem_singleton, List.not_mem_nil, or_false] at hnb
  rcases hnb with h | h | h | h | h | h | h | h <;> subst h <;>
    refine ⟨by dsimp only; omega, by dsimp only; omega, ?_⟩ <;>
    simp [getNeighbors_eq, ux0, ux1, ux2, uy0, uy1, uy2, px, py, nx, ny]

end GameOfLife

namespace GameOfLife

/-- C10. On the 400 x 400 grid of `main`, for every state with a live cell and every
interior cell `(x, y)` (`1 ≤ x, y ≤ 398`), the cell is alive after `doGeneration`
exactly when the standard rule, evaluated once on the pre-step grid for the eight
adjacent cells `(x + dx, y + dy)`, says so. -/
theorem doGeneration_interior_eq_standardRule (g : GameOfLife)
    (hlive : ∃ k, k < 400 * 400 ∧ g.m_cellMap k = true)
    (x y : Nat) (hx1 : 1 ≤ x) (hx2 : x ≤ 398) (hy1 : 1 ≤ y) (hy2 : y ≤ 398) :
    (doGeneration 400 400 g).2.m_cellMap (y * 400 + x)
      = standardRule 400 g.m_cellMap x y := by
  have hne : Bitset.none (400 * 400) g.m_cellMap = false :=
    (Bitset.none_eq_false_iff _ _).2 hlive
  have hk : y * 400 + x < 8 * (400 * 400 / 8) := by omega
  have ux : u32 x = x := u32_of_lt x (by omega)
  have uy : u32 y = y := u32_of_lt y (by omega)
  have hcnt := countAlive_interior g.m_cellMap x y hx1 hx2 hy1 hy2
  rw [Bool.eq_iff_iff]
  by_cases hm : g.m_cellMap (y * 400 + x) = true
  · rw [doGeneration_live_iff 400 400 g hne _ hk hm]
    simp only [standardRule, hm, if_true, decide_eq_true_eq]
    constructor
    · intro h
      have h1 := h x (by omega) y (by omega) rfl
      simp only [diesAt, ux, uy, hcnt, Bool.or_eq_false_iff, decide_eq_false_iff_not] at h1
      omega
    · intro h i hi j hj e
      have hi2 : i = x := by omega
      have hj2 : j = y := by omega
      subst hi2 hj2
      simp only [diesAt, ux, uy, hcnt, Bool.or_eq_false_iff, decide_eq_false_iff_not]
      omega
  · have hm2 : g.m_cellMap (y * 400 + x) = false := by simpa using hm
    rw [doGeneration_dead_iff 400 400 g hne _ hk hm2]
    simp only [standardRule, hm2, Bool.false_eq_true, if_false, decide_eq_true_eq]
    constructor
    · rintro ⟨i, hi, j, hj, _, nb, hnb, e, h3⟩
      have hb : nb.x < 400 ∧ nb.y < 400 :=
        getNeighbors_lt 400 400 ⟨u32 i, u32 j⟩ nb (by omega) (by omega)
          (Nat.lt_of_le_of_lt (u32_le i) hi) (Nat.lt_of_le_of_lt (u32_le j) hj) hnb
      have e1 : nb.x = x := by omega
      have e2 : nb.y = y := by omega
      have e3 : nb = ⟨x, y⟩ := by
        cases nb
        simp only [Vector2u.mk.injEq]
        exact ⟨e1, e2⟩
      rw [e3, hcnt] at h3
      exact h3
    · intro h3
      rw [← hcnt, countAlive_eq_length] at h3
      have hpos : 0 < (List.filter (fun c => g.m_cellMap (c.y * 400 + c.x))
          (getNeighbors 400 400 ⟨x, y⟩)).length := by omega
      obtain ⟨nb, hmem⟩ := List.exists_mem_of_length_pos hpos
      rw [List.mem_filter] at hmem
      obtain ⟨hnb, hal⟩ := hmem
      obtain ⟨b1, b2, hsymm⟩ := mem_getNeighbors_symm_interior x y hx1 hx2 hy1 hy2 nb hnb
      refine ⟨nb.x, b1, nb.y, b2, hal, ⟨x, y⟩, hsymm, rfl, ?_⟩
      rw [countAlive_eq_length]
      exact h3

/-- Witness for C10: an interior cell of a grid with three live cells in a row. -/
theorem doGeneration_interior_eq_standardRule_witness :
    (doGeneration 400 400
        { GameOfLife.init with m_cellMap := fun k => decide (k = 801 ∨ k = 802 ∨ k = 803) }
      ).2.m_cellMap (2 * 400 + 2)
      = standardRule 400 (fun k => decide (k = 801 ∨ k = 802 ∨ k = 803)) 2 2 :=
  doGeneration_interior_eq_standardRule
    { GameOfLife.init with m_cellMap := fun k => decide (k = 801 ∨ k = 802 ∨ k = 803) }
    ⟨801, by decide, by decide⟩ 2 2 (by decide) (by decide) (by decide) (by decide)

end GameOfLife

/-! ## The wraparound at column 0 and row 0 -/

namespace GameOfLife

/-- C1. `getNeighbors` at a cell of column 0 and row 0: on the 400 x 400 grid the left
column and the upper row it returns are 95 (`(2^32 - 1) mod 400`), not 399, and on a
3 x 3 grid the neighbour list of `(0, 0)` does not contain `(2, 2)` although the list of
`(2, 2)` contains `(0, 0)`. -/
theorem getNeighbors_origin :
    getNeighbors 400 400 ⟨0, 0⟩
        = [⟨95, 95⟩, ⟨95, 0⟩, ⟨95, 1⟩, ⟨0, 95⟩, ⟨0, 1⟩, ⟨1, 95⟩, ⟨1, 0⟩, ⟨1, 1⟩]
      ∧ (⟨2, 2⟩ : Vector2u) ∉ getNeighbors 3 3 ⟨0, 0⟩
      ∧ (⟨0, 0⟩ : Vector2u) ∈ getNeighbors 3 3 ⟨2, 2⟩ := by
  decide

/-- C2. On the 400 x 400 grid with live cells `(399, 0)`, `(0, 1)`, `(399, 1)`, the live
cell `(0, 1)` has 2 live toroidal neighbours, and it is dead after `doGeneration`. -/
theorem survival_left_column :
    leftColumnLive.m_cellMap (1 * 400 + 0) = true
      ∧ liveToroidal 400 400 leftColumnLive.m_cellMap 0 1 = 2
      ∧ (doGeneration 400 400 leftColumnLive).2.m_cellMap (1 * 400 + 0) = false := by
  refine ⟨by decide, by decide, ?_⟩
  have hne : Bitset.none (400 * 400) leftColumnLive.m_cellMap = false :=
    (Bitset.none_eq_false_iff _ _).2 ⟨400, by decide, by decide⟩
  rw [← Bool.not_eq_true, doGeneration_live_iff 400 400 _ hne _ (by decide) (by decide)]
  intro h
  have h1 := h 0 (by decide) 1 (by decide) rfl
  revert h1
  decide

/-- C3. On the 400 x 400 grid with live cells `(399, 0)`, `(399, 1)`, `(399, 2)`, the
dead cell `(0, 1)` has exactly 3 live toroidal neighbours, and it is still dead after
`doGeneration`. -/
theorem birth_left_column :
    rightColumnLine.m_cellMap (1 * 400 + 0) = false
      ∧ liveToroidal 400 400 rightColumnLine.m_cellMap 0 1 = 3
      ∧ (doGeneration 400 400 rightColumnLine).2.m_cellMap (1 * 400 + 0) = false := by
  refine ⟨by decide, by decide, ?_⟩
  have hne : Bitset.none (400 * 400) rightColumnLine.m_cellMap = false :=
    (Bitset.none_eq_false_iff _ _).2 ⟨399, by decide, by decide⟩
  rw [← Bool.not_eq_true, doGeneration_dead_iff 400 400 _ hne _ (by decide) (by decide)]
  rintro ⟨i, hi, j, hj, _, nb, hnb, e, h3⟩
  have hb := getNeighbors_lt 400 400 ⟨u32 i, u32 j⟩ nb (by omega) (by omega)
    (Nat.lt_of_le_of_lt (u32_le i) hi) (Nat.lt_of_le_of_lt (u32_le j) hj) hnb
  have e1 : nb.x = 0 := by omega
  have e2 : nb.y = 1 := by omega
  have e3 : nb = ⟨0, 1⟩ := by
    cases nb
    simp only [Vector2u.mk.injEq]
    exact ⟨e1, e2⟩
  rw [e3] at h3
  revert h3
  decide

/-- C7. On a 5 x 5 grid with live cells `(1, 0)`, `(1, 1)`, `(1, 2)`, one `doGeneration`
leaves exactly the live cells `(0, 0)`, `(1, 0)`, `(2, 0)`, `(0, 1)`, `(1, 1)`, `(2, 1)`:
the cell `(1, 0)` is still alive, and the live cells are not exactly `(0, 1)`, `(1, 1)`,
`(2, 1)`. -/
theorem blinker5_first_step :
    LiveExactly 5 5 blinker5.m_cellMap [(1, 0), (1, 1), (1, 2)]
      ∧ LiveExactly 5 5 (doGeneration 5 5 blinker5).2.m_cellMap
          [(0, 0), (1, 0), (2, 0), (0, 1), (1, 1), (2, 1)]
      ∧ (doGeneration 5 5 blinker5).2.m_cellMap (0 * 5 + 1) = true
      ∧ ¬ LiveExactly 5 5 (doGeneration 5 5 blinker5).2.m_cellMap [(0, 1), (1, 1), (2, 1)] := by
  have h1 : (doGeneration 5 5 blinker5).2.m_cellMap (0 * 5 + 1) = true := by decide
  refine ⟨?_, ?_, h1, ?_⟩
  · unfold LiveExactly
    decide
  · unfold LiveExactly
    decide
  · intro h
    have := (h 1 (by decide) 0 (by decide)).1 h1
    revert this
    decide

end GameOfLife

/-! ## The flag returned by `doGeneration`, and `update` -/

namespace GameOfLife

/-- C4, as stated, fails: the 3 x 3 grid whose only live cell is `(1, 1)` steps to the
all-dead grid, and the step returns `true`. -/
theorem single3_step_returns_true :
    ¬ (Bitset.none (3 * 3) (doGeneration 3 3 single3).2.m_cellMap = true
        → (doGeneration 3 3 single3).1 = false) := by
  decide

/-- C4, amended. `doGeneration` returns `false` exactly when the grid it is called on
has no live cell; when the grid that results from a call has no live cell, it is the
next call that returns `false`; and an `update` of a running game whose timer reaches
the tick interval (no mouse button pressed) leaves the Running state exactly when the
grid before the step has no live cell. -/
theorem doGeneration_false_iff (W H : Nat) (g : GameOfLife) :
    ((doGeneration W H g).1 = false ↔ Bitset.none (W * H) g.m_cellMap = true)
      ∧ (Bitset.none (W * H) (doGeneration W H g).2.m_cellMap = true
          → (doGeneration W H (doGeneration W H g).2).1 = false)
      ∧ ∀ f : Frame, g.m_startFlag = true → f.leftPressed = false →
          f.rightPressed = false → m_tickSpeed ≤ g.m_timer + f.deltaTime →
          (update W H g f).m_startFlag = !Bitset.none (W * H) g.m_cellMap := by
  have key : ∀ s : GameOfLife,
      (doGeneration W H s).1 = !Bitset.none (W * H) s.m_cellMap := by
    intro s
    by_cases h : Bitset.none (W * H) s.m_cellMap = true
    · simp [doGeneration_of_none W H s h, h]
    · have h2 : Bitset.none (W * H) s.m_cellMap = false := by simpa using h
      simp [doGeneration_of_alive W H s h2, h2]
  have key2 : ∀ s : GameOfLife,
      (doGeneration W H s).1 = false ↔ Bitset.none (W * H) s.m_cellMap = true := by
    intro s
    rw [key s]
    cases Bitset.none (W * H) s.m_cellMap <;> simp
  refine ⟨key2 g, fun h => (key2 _).2 h, ?_⟩
  intro f hrun hleft hright htick
  have ht : g.m_timer + f.deltaTime ≥ m_tickSpeed := htick
  unfold update
  simp only [hleft, hright, Bool.false_eq_true, if_false]
  rw [if_pos hrun, if_pos ht]
  exact key _

/-- Witness for the amended C4 on the 3 x 3 grid with the single live cell `(1, 1)`. -/
theorem doGeneration_false_iff_witness :
    (doGeneration 3 3 single3).1 = true
      ∧ (doGeneration 3 3 (doGeneration 3 3 single3).2).1 = false :=
  ⟨by decide, (doGeneration_false_iff 3 3 single3).2.1 (by decide)⟩

theorem setCell_dead_of_dead (W H : Nat) (g : GameOfLife) (p : Vector2f)
    (hdead : ∀ k, k < W * H → g.m_cellMap k = false) :
    (∀ k, k < W * H → (setCell W H g p false).m_cellMap k = false)
      ∧ (setCell W H g p false).m_startFlag = g.m_startFlag
      ∧ (setCell W H g p false).m_timer = g.m_timer := by
  unfold setCell
  dsimp only
  split
  · refine ⟨?_, rfl, rfl⟩
    intro k hk
    simp only [Bitset.set_apply]
    split
    · rfl
    · exact hdead k hk
  · exact ⟨hdead, rfl, rfl⟩

theorem doGeneration_after_timer (W H : Nat) (s : GameOfLife) (dt : ℚ)
    (hs : ∀ k, k < W * H → s.m_cellMap k = false) :
    doGeneration W H { s with m_timer := s.m_timer + dt }
      = (false, { s with m_timer := s.m_timer + dt, m_numGenerations := 0 }) :=
  doGeneration_of_none W H _ ((Bitset.none_eq_true_iff _ _).2 hs)

/-- C9. On an all-dead grid of any size, whatever the generation counter,
`doGeneration` leaves every cell dead, returns `false` and sets the counter to 0; and a
controller in the Editing state with an all-dead grid that is toggled to Running by the
Enter key is, after the `update` whose timer reaches the tick interval (the left button
not being pressed), in the Editing state again with generation counter 0 and an
all-dead grid. -/
theorem doGeneration_all_dead (W H : Nat) (g : GameOfLife)
    (hdead : ∀ k, k < W * H → g.m_cellMap k = false) :
    ((doGeneration W H g).1 = false
        ∧ (∀ k, (doGeneration W H g).2.m_cellMap k = g.m_cellMap k)
        ∧ (doGeneration W H g).2.m_numGenerations = 0)
      ∧ ∀ f : Frame, g.m_startFlag = false → f.leftPressed = false →
          m_tickSpeed ≤ g.m_timer + f.deltaTime →
          (handleInputs g [Event.keyPressed Key.enter]).m_startFlag = true
            ∧ (update W H (handleInputs g [Event.keyPressed Key.enter]) f).m_startFlag = false
            ∧ (update W H (handleInputs g [Event.keyPressed Key.enter]) f).m_numGenerations = 0
            ∧ ∀ k, k < W * H →
                (update W H (handleInputs g [Event.keyPressed Key.enter]) f).m_cellMap k
                  = false := by
  have key : ∀ s : GameOfLife, (∀ k, k < W * H → s.m_cellMap k = false) →
      doGeneration W H s = (false, { s with m_numGenerations := 0 }) := fun s hs =>
    doGeneration_of_none W H s ((Bitset.none_eq_true_iff _ _).2 hs)
  refine ⟨by simp [key g hdead], ?_⟩
  intro f hflag hleft htick
  have hrun : (handleInputs g [Event.keyPressed Key.enter]).m_startFlag = true := by
    simp [handleInputs, handleEvent, hflag]
  have hmap : (handleInputs g [Event.keyPressed Key.enter]).m_cellMap = g.m_cellMap := rfl
  have htim : (handleInputs g [Event.keyPressed Key.enter]).m_timer = g.m_timer := rfl
  generalize handleInputs g [Event.keyPressed Key.enter] = s at hrun hmap htim
  have hs : ∀ k, k < W * H → s.m_cellMap k = false := by
    rw [hmap]
    exact hdead
  refine ⟨hrun, ?_⟩
  unfold update
  simp only [hleft, Bool.false_eq_true, if_false]
  by_cases hr : f.rightPressed = true
  · obtain ⟨e1, e2, e3⟩ := setCell_dead_of_dead W H s f.mouseWorld hs
    have ht : (setCell W H s f.mouseWorld false).m_timer + f.deltaTime ≥ m_tickSpeed := by
      rw [e3, htim]
      exact htick
    simp only [hr, if_true]
    rw [if_pos (e2.trans hrun), if_pos ht, doGeneration_after_timer W H _ _ e1]
    exact ⟨rfl, rfl, e1⟩
  · have ht : s.m_timer + f.deltaTime ≥ m_tickSpeed := by
      rw [htim]
      exact htick
    have hr2 : f.rightPressed = false := by simpa using hr
    simp only [hr2, Bool.false_eq_true, if_false]
    rw [if_pos hrun, if_pos ht, doGeneration_after_timer W H _ _ hs]
    exact ⟨rfl, rfl, hs⟩

/-- Witness for C9: the freshly constructed 400 x 400 game, a frame of 0.2 s. -/
theorem doGeneration_all_dead_witness :
    (doGeneration 400 400 init).1 = false
      ∧ (update 400 400 (handleInputs init [Event.keyPressed Key.enter])
          ⟨1 / 5, false, false, ⟨0, 0⟩⟩).m_startFlag = false :=
  ⟨(doGeneration_all_dead 400 400 init (fun _ _ => rfl)).1.1,
   ((doGeneration_all_dead 400 400 init (fun _ _ => rfl)).2
      ⟨1 / 5, false, false, ⟨0, 0⟩⟩ rfl rfl (by norm_num [m_tickSpeed, init])).2.1⟩

end GameOfLife

/-! ## `setCell` and the zoom accumulator -/

namespace GameOfLife

theorem rat_floor_eq (q : ℚ) (z : Int) (h1 : (z : ℚ) ≤ q) (h2 : q < z + 1) :
    q.floor = z := by
  have h : q.floor = ⌊q⌋ := (Rat.floor_def' q).trans Rat.floor_def.symm
  rw [h, Int.floor_eq_iff]
  exact ⟨h1, h2⟩

theorem floatToInt_neg_one : floatToInt (-1) = -1 := by
  unfold floatToInt
  rw [if_pos (by norm_num), rat_floor_eq (- -1) 1 (by norm_num) (by norm_num)]

theorem floatToInt_one : floatToInt 1 = 1 := by
  unfold floatToInt
  rw [if_neg (by norm_num), rat_floor_eq 1 1 (by norm_num) (by norm_num)]

/-- C5. On the freshly constructed 400 x 400 grid, a pointer at the world position
`(-1, 1)` has the cell coordinate `-1` in `x` (outside the grid), and `setCell` with
state alive sets the cell at index 0. -/
theorem setCell_negative_world :
    cellCoordinate (-1) = -1
      ∧ init.m_cellMap 0 = false
      ∧ (setCell 400 400 init ⟨-1, 1⟩ true).m_cellMap 0 = true := by
  refine ⟨rat_floor_eq _ _ (by norm_num) (by norm_num), rfl, ?_⟩
  unfold setCell
  simp only [floatToInt_neg_one, floatToInt_one]
  decide

/-- What `setCell` does hold: a bit changes only if the truncated cell position is in
the grid and the bit is the one at index `y * gridSizeX + x` of that position. -/
theorem setCell_frame (W H : Nat) (g : GameOfLife) (p : Vector2f) (state : Bool) (k : Nat)
    (hk : (setCell W H g p state).m_cellMap k ≠ g.m_cellMap k) :
    (0 ≤ Int.tdiv (floatToInt p.x) 2 ∧ Int.tdiv (floatToInt p.x) 2 < W
        ∧ 0 ≤ Int.tdiv (floatToInt p.y) 2 ∧ Int.tdiv (floatToInt p.y) 2 < H)
      ∧ k = (Int.tdiv (floatToInt p.y) 2).toNat * W + (Int.tdiv (floatToInt p.x) 2).toNat := by
  unfold setCell at hk
  dsimp only at hk
  split at hk
  · next h =>
    refine ⟨h, ?_⟩
    by_contra hne
    apply hk
    simp [Bitset.set_apply, hne]
  · exact absurd rfl hk

/-- The range the zoom accumulator stays in. -/
theorem handleEvent_zoom (g : GameOfLife) (e : Event)
    (h : 1 / 110 ≤ g.m_totalZoom ∧ g.m_totalZoom ≤ 33 / 100) :
    1 / 110 ≤ (handleEvent g e).m_totalZoom ∧ (handleEvent g e).m_totalZoom ≤ 33 / 100 := by
  obtain ⟨h1, h2⟩ := h
  cases e with
  | mouseWheelScrolled delta =>
    simp only [handleEvent, m_zoomFactor]
    split
    · split
      · exact ⟨h1, h2⟩
      · next hz =>
        have hz2 : 1 / 100 ≤ g.m_totalZoom := not_lt.mp hz
        constructor
        · show 1 / 110 ≤ g.m_totalZoom * (1 / (11 / 10))
          linarith
        · show g.m_totalZoom * (1 / (11 / 10)) ≤ 33 / 100
          linarith
    · split
      · split
        · exact ⟨h1, h2⟩
        · next hz =>
          have hz2 : g.m_totalZoom ≤ 3 / 10 := not_lt.mp hz
          constructor
          · show 1 / 110 ≤ g.m_totalZoom * (11 / 10)
            linarith
          · show g.m_totalZoom * (11 / 10) ≤ 33 / 100
            linarith
      · exact ⟨h1, h2⟩
  | keyPressed code => cases code <;> exact ⟨h1, h2⟩
  | closed => exact ⟨h1, h2⟩
  | mouseButtonPressed => exact ⟨h1, h2⟩
  | mouseButtonReleased => exact ⟨h1, h2⟩
  | mouseMoved => exact ⟨h1, h2⟩

theorem handleInputs_zoom (events : List Event) (g : GameOfLife)
    (h : 1 / 110 ≤ g.m_totalZoom ∧ g.m_totalZoom ≤ 33 / 100) :
    1 / 110 ≤ (handleInputs g events).m_totalZoom
      ∧ (handleInputs g events).m_totalZoom ≤ 33 / 100 := by
  induction events generalizing g with
  | nil => exact h
  | cons e es ih => exact ih (handleEvent g e) (handleEvent_zoom g e h)

/-- C6, as stated, fails: after ten scroll-down events from the constructed state the
zoom accumulator is `0.125 * 1.1^10 > 0.3`, and after twenty-seven scroll-up events it
is `0.125 / 1.1^27 < 0.01`. -/
theorem zoom_leaves_range :
    ¬ ((handleInputs init (List.replicate 10 scrollDown)).m_totalZoom ≤ 3 / 10)
      ∧ ¬ (1 / 100 ≤ (handleInputs init (List.replicate 27 scrollUp)).m_totalZoom) := by
  constructor
  · norm_num [handleInputs, handleEvent, init, scrollDown, m_zoomFactor, m_viewSizeX,
      windowSizeX, List.replicate]
  · norm_num [handleInputs, handleEvent, init, scrollUp, m_zoomFactor, m_viewSizeX,
      windowSizeX, List.replicate]

/-- C6, amended. From the accumulator `100 / 800` set by the constructor, after every
finite sequence of events handled by `handleInputs` the zoom accumulator lies in
`[0.01 / 1.10, 0.3 * 1.10] = [1/110, 33/100]`. -/
theorem zoom_within_one_step (events : List Event) :
    1 / 110 ≤ (handleInputs init events).m_totalZoom
      ∧ (handleInputs init events).m_totalZoom ≤ 33 / 100 := by
  apply handleInputs_zoom
  norm_num [init, m_viewSizeX, windowSizeX]

end GameOfLife

/-! ## The block -/

namespace GameOfLife

theorem index_unique (W x i y j : Nat) (hx : x < W) (hi : i < W)
    (e : j * W + i = y * W + x) : i = x ∧ j = y := by
  have h1 : (j * W + i) % W = i := by
    rw [Nat.add_comm, Nat.add_mul_mod_self_right, Nat.mod_eq_of_lt hi]
  have h2 : (y * W + x) % W = x := by
    rw [Nat.add_comm, Nat.add_mul_mod_self_right, Nat.mod_eq_of_lt hx]
  have hix : i = x := by rw [← h1, e, h2]
  subst hix
  have h3 : j * W = y * W := by omega
  exact ⟨rfl, Nat.eq_of_mul_eq_mul_right (by omega) h3⟩

theorem inBlock_prev_next (W : Nat) (hW : 4 ≤ W) (x : Nat) (hx : inBlock x = true) :
    inBlock (prevMod W x) = !inBlock (nextMod W x) := by
  have hx2 : x = 1 ∨ x = 2 := by simpa [inBlock] using hx
  rcases hx2 with h | h <;> subst h
  · have a : prevMod W 1 = 0 := by
      show 0 % W = 0
      exact Nat.zero_mod W
    have b : nextMod W 1 = 2 := by
      show 2 % W = 2
      exact Nat.mod_eq_of_lt (by omega)
    rw [a, b]
    rfl
  · have a : prevMod W 2 = 1 := by
      show 1 % W = 1
      exact Nat.mod_eq_of_lt (by omega)
    have b : nextMod W 2 = 3 := by
      show 3 % W = 3
      exact Nat.mod_eq_of_lt (by omega)
    rw [a, b]
    rfl

theorem count_bools :
    ∀ p1 p2 p3 q1 q2 q3 : Bool, (p2 = true → p1 = !p3) → (q2 = true → q1 = !q3) →
      ((0 + (if (p3 && q3) = true then 1 else 0) + (if (p3 && q2) = true then 1 else 0)
          + (if (p3 && q1) = true then 1 else 0) + (if (p2 && q3) = true then 1 else 0)
          + (if (p2 && q1) = true then 1 else 0) + (if (p1 && q3) = true then 1 else 0)
          + (if (p1 && q2) = true then 1 else 0) + (if (p1 && q1) = true then 1 else 0) = 3)
        ↔ (p2 && q2) = true) := by
  decide

/-- On a grid of at least 4 x 4 cells that holds the block, the neighbour list of a
cell of the grid has exactly 3 live entries if and only if the cell belongs to the
block. -/
theorem countAlive_block (W H : Nat) (hW : 4 ≤ W) (hH : 4 ≤ H) (m : Bitset)
    (hm : ∀ a, a < W → ∀ b, b < H → m (b * W + a) = (inBlock a && inBlock b))
    (x y : Nat) (hx : x < W) (hy : y < H) :
    countAlive W m (getNeighbors W H ⟨x, y⟩) = 3 ↔ (inBlock x && inBlock y) = true := by
  have p1 := prevMod_lt W x (by omega)
  have p2 := prevMod_lt H y (by omega)
  have n1 := nextMod_lt W x (by omega)
  have n2 := nextMod_lt H y (by omega)
  have c1 := inBlock_prev_next W hW x
  have c2 := inBlock_prev_next H hH y
  rw [getNeighbors_eq, countAlive_eq_length]
  simp only [← List.countP_eq_length_filter, List.countP_cons, List.countP_nil,
    hm _ p1 _ p2, hm _ p1 _ hy, hm _ p1 _ n2, hm _ hx _ p2, hm _ hx _ n2,
    hm _ n1 _ p2, hm _ n1 _ hy, hm _ n1 _ n2]
  exact count_bools _ _ _ _ _ _ c1 c2

theorem liveExactly_block_iff (W H : Nat) (m : Bitset) :
    LiveExactly W H m blockCells
      ↔ ∀ a, a < W → ∀ b, b < H → m (b * W + a) = (inBlock a && inBlock b) := by
  have key : ∀ a b : Nat, (a, b) ∈ blockCells ↔ (inBlock a && inBlock b) = true := by
    intro a b
    simp only [blockCells, inBlock, List.mem_cons, Prod.mk.injEq, List.mem_singleton,
      List.not_mem_nil, or_false, Bool.and_eq_true, Bool.or_eq_true, beq_iff_eq]
    omega
  unfold LiveExactly
  constructor
  · intro h a ha b hb
    rw [Bool.eq_iff_iff, h a ha b hb, key]
  · intro h a ha b hb
    rw [h a ha b hb, key]

/-- One `doGeneration` on a grid of at least 4 x 4 cells that holds the block returns
`true` and leaves the block. -/
theorem doGeneration_block (W H : Nat) (hW : 4 ≤ W) (hH : 4 ≤ H) (g : GameOfLife)
    (hg : LiveExactly W H g.m_cellMap blockCells) :
    (doGeneration W H g).1 = true
      ∧ LiveExactly W H (doGeneration W H g).2.m_cellMap blockCells := by
  have hm := (liveExactly_block_iff W H g.m_cellMap).1 hg
  have hWH : W * 4 ≤ W * H := Nat.mul_le_mul_left W hH
  have hne : Bitset.none (W * H) g.m_cellMap = false := by
    refine (Bitset.none_eq_false_iff _ _).2 ⟨1 * W + 1, by omega, ?_⟩
    rw [hm 1 (by omega) 1 (by omega)]
    rfl
  refine ⟨by rw [doGeneration_of_alive W H g hne], ?_⟩
  rw [liveExactly_block_iff]
  intro a ha b hb
  by_cases hk : b * W + a < 8 * (W * H / 8)
  · have ua : u32 a ≤ a := u32_le a
    by_cases hl : g.m_cellMap (b * W + a) = true
    · have hblock : (inBlock a && inBlock b) = true := by rw [← hm a ha b hb]; exact hl
      rw [hblock, doGeneration_live_iff W H g hne _ hk hl]
      intro i hi j hj e
      obtain ⟨e1, e2⟩ := index_unique W a i b j ha hi e
      subst e1 e2
      have hi2 : i = 1 ∨ i = 2 := by
        have : inBlock i = true := by
          simp only [Bool.and_eq_true] at hblock
          exact hblock.1
        simpa [inBlock] using this
      have hj2 : j = 1 ∨ j = 2 := by
        have : inBlock j = true := by
          simp only [Bool.and_eq_true] at hblock
          exact hblock.2
        simpa [inBlock] using this
      have ui : u32 i = i := u32_of_lt i (by omega)
      have uj : u32 j = j := u32_of_lt j (by omega)
      have h3 := (countAlive_block W H hW hH g.m_cellMap hm i j hi hj).2 hblock
      simp [diesAt, ui, uj, h3]
    · have hl2 : g.m_cellMap (b * W + a) = false := by simpa using hl
      have hblock : (inBlock a && inBlock b) = false := by rw [← hm a ha b hb]; exact hl2
      rw [hblock, ← Bool.not_eq_true, doGeneration_dead_iff W H g hne _ hk hl2]
      rintro ⟨i, hi, j, hj, _, nb, hnb, e, h3⟩
      have hb2 := getNeighbors_lt W H ⟨u32 i, u32 j⟩ nb (by omega) (by omega)
        (Nat.lt_of_le_of_lt (u32_le i) hi) (Nat.lt_of_le_of_lt (u32_le j) hj) hnb
      obtain ⟨e1, e2⟩ := index_unique W a nb.x b nb.y ha hb2.1 e
      have e3 : nb = ⟨a, b⟩ := by
        cases nb
        simp only [Vector2u.mk.injEq]
        exact ⟨e1, e2⟩
      rw [e3] at h3
      have := (countAlive_block W H hW hH g.m_cellMap hm a b ha hb).1 h3
      rw [hblock] at this
      exact Bool.false_ne_true this
  · rw [doGeneration_tail W H g _ hk]
    exact hm a ha b hb

/-- C8. On every grid of at least 4 x 4 cells whose live cells are exactly `(1, 1)`,
`(1, 2)`, `(2, 1)`, `(2, 2)`, after `n` successive calls of `doGeneration` the live cells
are still exactly those four, and every one of those calls returned `true`. -/
theorem block_stable (W H : Nat) (hW : 4 ≤ W) (hH : 4 ≤ H) (g : GameOfLife)
    (hg : LiveExactly W H g.m_cellMap blockCells) (n : Nat) :
    LiveExactly W H (generations W H n g).m_cellMap blockCells
      ∧ ∀ i, i < n → (doGeneration W H (generations W H i g)).1 = true := by
  have step : ∀ i, LiveExactly W H (generations W H i g).m_cellMap blockCells := by
    intro i
    induction i with
    | zero => exact hg
    | succ i ih =>
      have e : generations W H (i + 1) g = (doGeneration W H (generations W H i g)).2 := by
        unfold generations
        rw [Function.iterate_succ_apply']
      rw [e]
      exact (doGeneration_block W H hW hH _ ih).2
  exact ⟨step n, fun i _ => (doGeneration_block W H hW hH _ (step i)).1⟩

/-- Witness for C8: the block on the 4 x 4 grid, three calls. -/
theorem block_stable_witness :
    LiveExactly 4 4
        (generations 4 4 3
          { init with m_cellMap := fun k => decide (k = 5 ∨ k = 6 ∨ k = 9 ∨ k = 10) }).m_cellMap
        blockCells
      ∧ ∀ i, i < 3 → (doGeneration 4 4 (generations 4 4 i
          { init with m_cellMap := fun k => decide (k = 5 ∨ k = 6 ∨ k = 9 ∨ k = 10) })).1
            = true :=
  block_stable 4 4 (by decide) (by decide)
    { init with m_cellMap := fun k => decide (k = 5 ∨ k = 6 ∨ k = 9 ∨ k = 10) }
    (by unfold LiveExactly; decide) 3

end GameOfLife
